import Mathlib

/-!
# Verification of the Agil-FTP remote-transfer core

Shallow embedding of `src/services/sftp_service.py`:
`download_from_server` (listing, prefix/date selection, fetch, archive) and
`upload_to_server` (relative-path validation, remote directory provisioning,
store) for both the SFTP and the FTPS protocol branches.

Conventions of the embedding:
* Python strings are Lean `String`s; the helpers below implement the exact
  algorithms of `posixpath.normpath`, `posixpath.join`, `posixpath.dirname`,
  `posixpath.basename` and `str.lstrip("/")` used by the source.
* The remote file system is a set of directory paths (lists of path
  segments, `[]` is the root) plus, for FTPS, the session's current working
  directory.  Path resolution by the server skips `"."` segments and pops
  `".."` segments; relative paths resolve against the root for SFTP (home
  directory taken as `/`) and against the current working directory for FTPS.
* A Python exception is an `Except`/`Option` error value; a `try/except`
  block is a `match` that discards the error.  Raise sites are told apart by
  error constructors named after the spec's error taxonomy.
* `mkdir`/`MKD` refusal by the server (permissions and the like) is modelled
  by a `refuse` predicate on the created path; structural failures (parent
  missing, already present) are modelled directly.
-/

set_option autoImplicit false

namespace AgilFtp

/-! ## String and posixpath primitives

Implemented structurally over `List Char` so that every concrete run of the
model can be evaluated by the kernel (`decide`/`rfl`); each one mirrors the
Python string or `posixpath` operation named in its doc comment. -/

/-- Split a character list at a separator, Python `str.split(sep)` style:
the empty string yields one empty group. -/
def splitOnChar (sep : Char) : List Char → List (List Char)
  | [] => [[]]
  | c :: cs =>
    match splitOnChar sep cs with
    | [] => [[c]]
    | g :: gs => if c = sep then [] :: g :: gs else (c :: g) :: gs

/-- Python `path.split("/")`. -/
def splitSlash (s : String) : List String := (splitOnChar '/' s.toList).map String.mk

/-- Python `s.lstrip("/")`: drop every leading `/`. -/
def lstripSlash (s : String) : String := String.mk (s.toList.dropWhile (· = '/'))

/-- Python `s.startswith(pre)`. -/
def strStarts (s pre : String) : Bool := pre.toList.isPrefixOf s.toList

/-- Python `s.endswith(suf)`. -/
def strEnds (s suf : String) : Bool := suf.toList.isSuffixOf s.toList

/-- Python `s.lower()` (ASCII, which is all the protocol selector needs). -/
def strLower (s : String) : String := String.mk (s.toList.map Char.toLower)

/-- `"/".join` of a list of strings. -/
def intercalateSlash : List String → String
  | [] => ""
  | [a] => a
  | a :: b :: rest => a ++ "/" ++ intercalateSlash (b :: rest)

/-- `[p for p in path.split("/") if p]` — the non-empty slash-separated
segments of a path, as used by both directory-provisioning helpers. -/
def segsOf (s : String) : List String := (splitSlash s).filter (· ≠ "")

/-- One step of server-side path resolution: `"."` stays, `".."` pops,
anything else descends. -/
def rstep (pt : List String) (p : String) : List String :=
  if p = "." then pt else if p = ".." then pt.dropLast else pt ++ [p]

/-- Resolve a path string against the root (SFTP model: home = `/`). -/
def serverPath (s : String) : List String := (segsOf s).foldl rstep []

/-- The component fold inside Python's `posixpath.normpath`. -/
def normComps (initSlashes : Nat) (comps : List String) : List String :=
  comps.foldl (fun acc comp =>
    if comp = "" ∨ comp = "." then acc
    else if comp ≠ ".." ∨ (initSlashes = 0 ∧ acc = []) ∨ acc.getLast? = some ".." then
      acc ++ [comp]
    else acc.dropLast) []

/-- Python `posixpath.normpath`, line for line: empty path becomes `"."`,
`//` (but not `///`) is preserved doubly, `"."` components are dropped and
`".."` components pop unless there is nothing to pop. -/
def posixNormpath (path : String) : String :=
  if path = "" then "."
  else
    let initSlashes : Nat :=
      if strStarts path "//" ∧ ¬ strStarts path "///" then 2
      else if strStarts path "/" then 1 else 0
    let comps := splitSlash path
    let p := String.mk (List.replicate initSlashes '/') ++
      intercalateSlash (normComps initSlashes comps)
    if p = "" then "." else p

/-- Python `posixpath.join(a, b)` (two arguments). -/
def posixJoin (a b : String) : String :=
  if strStarts b "/" then b
  else if a = "" ∨ strEnds a "/" then a ++ b
  else a ++ "/" ++ b

/-- Python `posixpath.dirname`: everything up to the last `/`, with the
trailing slash run stripped unless the head is all slashes. -/
def posixDirname (p : String) : String :=
  let cs := p.toList
  let i := cs.length - (cs.reverse.takeWhile (· ≠ '/')).length
  let head := cs.take i
  if head = [] then ""
  else if head.all (· = '/') then String.mk head
  else String.mk ((head.reverse.dropWhile (· = '/')).reverse)

/-- Python `posixpath.basename`: everything after the last `/`. -/
def posixBasename (p : String) : String :=
  String.mk ((p.toList.reverse.takeWhile (· ≠ '/')).reverse)

/-- The normalisation applied to every upload item's relative path:
`posixpath.normpath(relpath).lstrip("/")` (lines 130 and 179 of the
source). -/
def relposixOf (relpath : String) : String := lstripSlash (posixNormpath relpath)

/-- The skip test of the upload loops (lines 131 and 180): an item is
accepted unless its normalised path is empty or starts with `".."`. -/
def acceptedItem (it : String × String) : Bool :=
  ¬ (relposixOf it.1 = "" ∨ strStarts (relposixOf it.1) "..")

end AgilFtp

namespace AgilFtp

/-! ## Download model (`download_from_server`, lines 12–81)

The connection is an oracle `DlOps` giving the results of the remote
operations; a run returns the outcome together with the chronological list
of remote operations performed, `closeEv` marking `close_func()`. -/

/-- Remote events of a download run. -/
inductive DlEv where
  | connectEv : DlEv
  | listEv : DlEv
  | modEv : String → DlEv
  | fetchEv : String → DlEv
  | closeEv : DlEv
  deriving DecidableEq, Repr

/-- Results of the remote operations used by a download. -/
structure DlOps where
  listing : Except String (List String)
  mod : String → Except String Int
  fetch : String → Except String Unit

/-- Download failure taxonomy: `connTypeError` is the `ValueError` for an
unknown `conn_type` (line 53), `selectionError` the zero-match
`Exception` (line 65), `opError` any exception from a remote operation. -/
inductive DlErr where
  | connTypeError : DlErr
  | selectionError : DlErr
  | opError : String → DlErr
  deriving DecidableEq, Repr

/-- The selection loop (lines 56–61): skip when a non-empty prefix list has
no match, else — only when a date filter is present — ask the modification
time and skip entries strictly older than the bound. -/
def seleccionar (ops : DlOps) (ps : List String) (fd : Option Int) :
    List String → Except String (List String) × List DlEv
  | [] => (.ok [], [])
  | a :: rest =>
    if ¬ ps.isEmpty ∧ ¬ ps.any (fun p => strStarts a p) then
      seleccionar ops ps fd rest
    else
      match fd with
      | none =>
        let r := seleccionar ops ps fd rest
        (r.1.map (a :: ·), r.2)
      | some t =>
        match ops.mod a with
        | .error e => (.error e, [.modEv a])
        | .ok m =>
          if m < t then
            let r := seleccionar ops ps fd rest
            (r.1, .modEv a :: r.2)
          else
            let r := seleccionar ops ps fd rest
            (r.1.map (a :: ·), .modEv a :: r.2)

/-- The fetch loop (lines 68–70): stop at the first failing fetch. -/
def fetchAll (ops : DlOps) : List String → Except String Unit × List DlEv
  | [] => (.ok (), [])
  | a :: rest =>
    match ops.fetch a with
    | .error e => (.error e, [.fetchEv a])
    | .ok _ =>
      let r := fetchAll ops rest
      (r.1, .fetchEv a :: r.2)

/-- The protocol-independent body of `download_from_server`: list, filter,
fail on an empty selection (closing first, line 64), fetch, close, return
the archive as the list of selected names in listing order (the ZIP is
written from `seleccionados`, lines 76–78). -/
def download_core (ops : DlOps) (ps : List String) (fd : Option Int) :
    Except DlErr (List String) × List DlEv :=
  match ops.listing with
  | .error e => (.error (.opError e), [.connectEv, .listEv])
  | .ok archivos =>
    let sel := seleccionar ops ps fd archivos
    match sel.1 with
    | .error e => (.error (.opError e), [.connectEv, .listEv] ++ sel.2)
    | .ok seleccionados =>
      if seleccionados.isEmpty then
        (.error .selectionError, [.connectEv, .listEv] ++ sel.2 ++ [.closeEv])
      else
        let f := fetchAll ops seleccionados
        match f.1 with
        | .error e => (.error (.opError e), [.connectEv, .listEv] ++ sel.2 ++ f.2)
        | .ok _ =>
          (.ok seleccionados, [.connectEv, .listEv] ++ sel.2 ++ f.2 ++ [.closeEv])

/-- `download_from_server` protocol dispatch (lines 19, 38, 52–53): the
branch is chosen on `conn_type.lower()`, anything else raises before any
remote operation. -/
def download_from_server (conn_type : String) (sftpOps ftpsOps : DlOps)
    (ps : List String) (fd : Option Int) : Except DlErr (List String) × List DlEv :=
  if strLower conn_type = "ftps" then download_core ftpsOps ps fd
  else if strLower conn_type = "sftp" then download_core sftpOps ps fd
  else (.error .connTypeError, [])

/-- An oracle whose listing, modification times and fetches all succeed. -/
def pureOps (xs : List String) (mt : String → Int) : DlOps where
  listing := .ok xs
  mod := fun f => .ok (mt f)
  fetch := fun _ => .ok ()

/-- Modelled from the spec (§3 SelectionCriteria): an entry matches iff
(namePrefixes is empty OR the name starts with at least one prefix) AND
(notBefore is absent OR modifiedAt >= notBefore).  Used as the
specification side of the refinement claims about selection. -/
def matchesSpec (ps : List String) (fd : Option Int) (mt : String → Int)
    (name : String) : Bool :=
  (ps.isEmpty || ps.any (fun p => strStarts name p)) &&
    (match fd with
     | none => true
     | some t => decide (t ≤ mt name))

end AgilFtp

namespace AgilFtp

/-! ## Upload model (`upload_to_server`, lines 84–199)

The remote directory tree is a list of directory paths (lists of segments,
`[]` the ever-present root, no duplicates because creation requires
absence).  `refuse` models the server refusing a creation for a non-benign
reason (permissions, quota, …); structural failures are explicit. -/

/-- Upload failure taxonomy, one constructor per uncaught raise site:
`connTypeError` the `ValueError` of line 197, `ensureFail` a raise escaping
`ensure_dir` (FTPS, lines 124 and 147), `cwdFail` the uncaught
`ftps.cwd` of line 148, `storeFail` a failing `client.open` (SFTP,
line 188). -/
inductive UpErr where
  | connTypeError : UpErr
  | ensureFail : String → UpErr
  | cwdFail : String → UpErr
  | storeFail : String → UpErr
  deriving DecidableEq, Repr

/-- Remote side effects of an upload run, in order: successful directory
creations and file writes (server-resolved paths). -/
inductive UpEv where
  | mkdirEv : List String → UpEv
  | storEv : List String → UpEv
  deriving DecidableEq, Repr

/-- Does directory `t` exist?  The root always does. -/
def dirExists (dirs : List (List String)) (t : List String) : Bool :=
  t = [] || dirs.contains t

/-! ### SFTP branch (lines 157–194) -/

/-- SFTP remote state: the directory tree and the files written so far
(server-resolved paths, in write order). -/
structure SftpSt where
  dirs : List (List String)
  files : List (List String)
  deriving DecidableEq, Repr

/-- The `ensure_remote_dirs` walk (lines 164–176) over the cumulative
path prefixes: `cur` is the resolved point of the cumulative path string;
`client.stat(cur)` failing means the directory is absent, in which case
`client.mkdir(cur)` is attempted and any failure (refusal, missing parent)
is swallowed (`except Exception: pass`, line 176). -/
def ensureGo (refuse : List String → Bool) :
    List (List String) → List String → List String → List (List String) × List UpEv
  | dirs, _, [] => (dirs, [])
  | dirs, pt, p :: rest =>
    if dirExists dirs (rstep pt p) then ensureGo refuse dirs (rstep pt p) rest
    else if dirExists dirs (rstep pt p).dropLast ∧ ¬ refuse (rstep pt p) then
      ((ensureGo refuse (dirs ++ [rstep pt p]) (rstep pt p) rest).1,
        .mkdirEv (rstep pt p) :: (ensureGo refuse (dirs ++ [rstep pt p]) (rstep pt p) rest).2)
    else ensureGo refuse dirs (rstep pt p) rest

/-- `ensure_remote_dirs(path)`: walk the non-empty segments of `path`
(never raises — every exception inside is caught). -/
def ensure_remote_dirs (refuse : List String → Bool) (dirs : List (List String))
    (path : String) : List (List String) × List UpEv :=
  ensureGo refuse dirs [] (segsOf path)

/-- `client.open(remote_path, "wb")`: fails when the target resolves to the
root or an existing directory or its parent directory is missing. -/
def sftpOpenW (st : SftpSt) (p : String) : Option SftpSt :=
  let t := serverPath p
  if t ≠ [] ∧ ¬ st.dirs.contains t ∧ dirExists st.dirs t.dropLast then
    some { st with files := st.files ++ [t] }
  else none

/-- `remote_path = posixpath.join(remote_base, relposix)` (lines 133, 182). -/
def remotePathOf (remote_base rel : String) : String :=
  posixJoin remote_base (relposixOf rel)

/-- `remote_dir = posixpath.dirname(remote_path)` (lines 134, 183). -/
def remoteDirOf (remote_base rel : String) : String :=
  posixDirname (remotePathOf remote_base rel)

/-- The conditional `ensure_remote_dirs` call of lines 184–185: the
containing directory is ensured unless it is empty or `"."`. -/
def sftpEnsured (refuse : List String → Bool) (remote_base : String)
    (dirs : List (List String)) (rel : String) : List (List String) × List UpEv :=
  if remoteDirOf remote_base rel ≠ "" ∧ remoteDirOf remote_base rel ≠ "." then
    ensure_remote_dirs refuse dirs (remoteDirOf remote_base rel)
  else (dirs, [])

/-- One iteration of the SFTP upload loop (lines 178–191): normalise and
validate the relative path (skip silently), ensure the containing
directory, write the bytes.  Returns the new state, the remote events, and
the remote path appended to `uploaded` (if any). -/
def processItemS (refuse : List String → Bool) (remote_base : String)
    (st : SftpSt) (it : String × String) :
    Except UpErr (SftpSt × List UpEv × Option String) :=
  if relposixOf it.1 = "" ∨ strStarts (relposixOf it.1) ".." then .ok (st, [], none)
  else
    match sftpOpenW ⟨(sftpEnsured refuse remote_base st.dirs it.1).1, st.files⟩
        (remotePathOf remote_base it.1) with
    | none => .error (.storeFail (remotePathOf remote_base it.1))
    | some st2 =>
      .ok (st2, (sftpEnsured refuse remote_base st.dirs it.1).2 ++
        [.storEv (serverPath (remotePathOf remote_base it.1))],
        some (remotePathOf remote_base it.1))

/-- The SFTP upload loop; an uncaught exception aborts the batch (and, as
in the source, skips `client.close()`/`transport.close()`). -/
def uploadSftpLoop (refuse : List String → Bool) (remote_base : String) :
    SftpSt → List (String × String) → Except UpErr (SftpSt × List UpEv × List String)
  | st, [] => .ok (st, [], [])
  | st, it :: rest =>
    match processItemS refuse remote_base st it with
    | .error e => .error e
    | .ok (st1, ev, none) =>
      (uploadSftpLoop refuse remote_base st1 rest).map
        (fun r => (r.1, ev ++ r.2.1, r.2.2))
    | .ok (st1, ev, some p) =>
      (uploadSftpLoop refuse remote_base st1 rest).map
        (fun r => (r.1, ev ++ r.2.1, p :: r.2.2))

/-! ### FTPS branch (lines 94–155) -/

/-- FTPS session state: directory tree, current working directory, files
written so far. -/
structure FtpsSt where
  dirs : List (List String)
  cwd : List String
  files : List (List String)
  deriving DecidableEq, Repr

/-- FTPS server path resolution: absolute paths resolve from the root,
relative ones from the current working directory. -/
def ftpsResolve (cwd : List String) (p : String) : List String :=
  ((splitSlash p).filter (· ≠ "")).foldl rstep (if strStarts p "/" then [] else cwd)

/-- `ftps.cwd(p)`: enter an existing directory, else error 550. -/
def cwdOp (st : FtpsSt) (p : String) : Option FtpsSt :=
  let t := ftpsResolve st.cwd p
  if dirExists st.dirs t then some { st with cwd := t } else none

/-- `ftps.mkd(p)`: create a missing directory whose parent exists, unless
the server refuses; fails on an existing target, a missing parent, the
root, or refusal. -/
def mkdOp (refuse : List String → Bool) (st : FtpsSt) (p : String) : Option FtpsSt :=
  let t := ftpsResolve st.cwd p
  if dirExists st.dirs t then none
  else if dirExists st.dirs t.dropLast ∧ ¬ refuse t then
    some { st with dirs := st.dirs ++ [t] }
  else none

/-- The per-segment walk of `ensure_dir` (lines 114–124): try to enter each
segment; on failure create it and enter; a failure of either raises. -/
def ftpsWalk (refuse : List String → Bool) : FtpsSt → List String → Option FtpsSt
  | st, [] => some st
  | st, p :: rest =>
    match cwdOp st p with
    | some st1 => ftpsWalk refuse st1 rest
    | none =>
      match mkdOp refuse st p with
      | some st1 =>
        match cwdOp st1 p with
        | some st2 => ftpsWalk refuse st2 rest
        | none => none
      | none => none

/-- `ensure_dir(path)` (lines 103–126): best-effort entry into (or creation
of) `remote_base` with all failures swallowed, then the raising walk over
the segments of `path`, then the unprotected `ftps.cwd(remote_base)` of
line 126. -/
def ensure_dir (refuse : List String → Bool) (remote_base : String)
    (st : FtpsSt) (path : String) : Option FtpsSt :=
  let st1 :=
    match cwdOp st remote_base with
    | some s => s
    | none =>
      match mkdOp refuse st remote_base with
      | some s =>
        match cwdOp s remote_base with
        | some s2 => s2
        | none => s
      | none => st
  match ftpsWalk refuse st1 (segsOf path) with
  | none => none
  | some st2 => cwdOp st2 remote_base

/-- `ftps.storbinary("STOR " + name, bio)`: write a file named `name` in
the current working directory. -/
def storOp (st : FtpsSt) (name : String) : FtpsSt :=
  { st with files := st.files ++ [st.cwd ++ [name]] }

/-- The conditional `ensure_dir` call of lines 136–137, whose uncaught
failure aborts the batch. -/
def ftpsEnsured (refuse : List String → Bool) (remote_base : String)
    (st : FtpsSt) (rel : String) : Except UpErr FtpsSt :=
  if remoteDirOf remote_base rel ≠ "" ∧ remoteDirOf remote_base rel ≠ "." then
    match ensure_dir refuse remote_base st (remoteDirOf remote_base rel) with
    | none => .error (.ensureFail (remoteDirOf remote_base rel))
    | some s => .ok s
  else .ok st

/-- `remote_dir or remote_base` (Python truthiness, lines 144 and 148). -/
def cwdTarget (remote_base rel : String) : String :=
  if remoteDirOf remote_base rel ≠ "" then remoteDirOf remote_base rel else remote_base

/-- Lines 143–148: `ftps.cwd(remote_dir or remote_base)`, retried once
through `ensure_dir` on failure; the retry's failures are uncaught. -/
def ftpsEntered (refuse : List String → Bool) (remote_base : String)
    (st : FtpsSt) (rel : String) : Except UpErr FtpsSt :=
  match cwdOp st (cwdTarget remote_base rel) with
  | some s => .ok s
  | none =>
    match ensure_dir refuse remote_base st (remoteDirOf remote_base rel) with
    | none => .error (.ensureFail (remoteDirOf remote_base rel))
    | some s =>
      match cwdOp s (cwdTarget remote_base rel) with
      | some s2 => .ok s2
      | none => .error (.cwdFail (cwdTarget remote_base rel))

/-- One iteration of the FTPS upload loop (lines 128–153): validate, ensure
the containing directory, `cwd` into it (retrying through `ensure_dir` once,
lines 143–148), store the bytes. -/
def processItemF (refuse : List String → Bool) (remote_base : String)
    (st : FtpsSt) (it : String × String) :
    Except UpErr (FtpsSt × Option String) :=
  if relposixOf it.1 = "" ∨ strStarts (relposixOf it.1) ".." then .ok (st, none)
  else
    match ftpsEnsured refuse remote_base st it.1 with
    | .error e => .error e
    | .ok st1 =>
      match ftpsEntered refuse remote_base st1 it.1 with
      | .error e => .error e
      | .ok st2 =>
        .ok (storOp st2 (posixBasename (remotePathOf remote_base it.1)),
          some (remotePathOf remote_base it.1))

/-- The FTPS upload loop; an uncaught exception aborts the batch (skipping
`ftps.quit()`, as in the source). -/
def uploadFtpsLoop (refuse : List String → Bool) (remote_base : String) :
    FtpsSt → List (String × String) → Except UpErr (FtpsSt × List String)
  | st, [] => .ok (st, [])
  | st, it :: rest =>
    match processItemF refuse remote_base st it with
    | .error e => .error e
    | .ok (st1, none) => uploadFtpsLoop refuse remote_base st1 rest
    | .ok (st1, some p) =>
      (uploadFtpsLoop refuse remote_base st1 rest).map (fun r => (r.1, p :: r.2))

/-- Combined result of `upload_to_server`, tagged by the branch taken. -/
inductive UpRes where
  | sftpRes : Except UpErr (SftpSt × List UpEv × List String) → UpRes
  | ftpsRes : Except UpErr (FtpsSt × List String) → UpRes
  | errRes : UpErr → UpRes

/-- `upload_to_server` (lines 84–199): `remote_base = remote_directory or
"."` (line 92), then the branch is chosen on `conn_type.lower()`; anything
else raises `ValueError` (line 197) without touching either remote state. -/
def upload_to_server (conn_type : String) (refuse : List String → Bool)
    (sftpSt : SftpSt) (ftpsSt : FtpsSt) (remote_directory : String)
    (files : List (String × String)) : UpRes :=
  let remote_base := if remote_directory = "" then "." else remote_directory
  if strLower conn_type = "ftps" then
    .ftpsRes (uploadFtpsLoop refuse remote_base ftpsSt files)
  else if strLower conn_type = "sftp" then
    .sftpRes (uploadSftpLoop refuse remote_base sftpSt files)
  else .errRes .connTypeError

/-! ### Notions used by the analysis of `ensure_remote_dirs` -/

/-- Auxiliary for `blockedB`, structural over the reversed path. -/
def blockedR (refuse : List String → Bool) (dirs : List (List String)) :
    List String → Bool
  | [] => false
  | x :: rs =>
    !(dirs.contains ((x :: rs).reverse)) &&
      (refuse ((x :: rs).reverse) || blockedR refuse dirs rs)

/-- A directory path is blocked when it is missing and every chain of
creations leading to it bottoms out at a refused ancestor, so the ensure
walk can never bring it into existence. -/
def blockedB (refuse : List String → Bool) (dirs : List (List String))
    (t : List String) : Bool :=
  blockedR refuse dirs t.reverse

/-- Invariant carried along the `ensure_remote_dirs` walk: every prefix of
the current resolved point either exists or is blocked. -/
def EnsureInv (refuse : List String → Bool) (dirs : List (List String))
    (pt : List String) : Prop :=
  ∀ n : Nat, dirExists dirs (pt.take n) = true ∨ blockedB refuse dirs (pt.take n) = true

end AgilFtp


namespace AgilFtp

/-! ## Helper lemmas -/

theorem contains_true_iff {l : List (List String)} {x : List String} :
    l.contains x = true ↔ x ∈ l := List.elem_iff

theorem contains_append_left {l : List (List String)} {u x : List String}
    (h : l.contains x = true) : (l ++ [u]).contains x = true := by
  rw [contains_true_iff] at h ⊢
  exact List.mem_append_left _ h

theorem contains_false_iff {l : List (List String)} {x : List String} :
    l.contains x = false ↔ x ∉ l := by
  constructor
  · intro h hm
    rw [contains_true_iff.mpr hm] at h
    exact Bool.noConfusion h
  · intro h
    cases hb : l.contains x with
    | false => rfl
    | true => exact absurd (contains_true_iff.mp hb) h

/-- On an all-succeeding connection the selection loop returns exactly the
entries matching the specification's criteria, in listing order. -/
theorem seleccionar_pure (mt : String → Int) (xs ps : List String) (fd : Option Int) :
    ∀ ys, (seleccionar (pureOps xs mt) ps fd ys).1 = .ok (ys.filter (matchesSpec ps fd mt)) := by
  intro ys
  induction ys with
  | nil => rfl
  | cons a rest ih =>
    rw [List.filter_cons]
    by_cases h1 : ¬ ps.isEmpty = true ∧ ¬ (ps.any fun p => strStarts a p) = true
    · have hm : matchesSpec ps fd mt a = false := by
        simp only [Bool.not_eq_true] at h1
        simp [matchesSpec, h1.1, h1.2]
      rw [hm]
      simp only [seleccionar, if_pos h1]
      simpa using ih
    · have hpre : (ps.isEmpty || ps.any fun p => strStarts a p) = true := by
        simp only [Bool.not_eq_true, not_and_or, not_not] at h1
        rcases h1 with h | h <;> simp [h]
      cases fd with
      | none =>
        have hm : matchesSpec ps none mt a = true := by simp [matchesSpec, hpre]
        rw [hm]
        simp only [seleccionar, if_neg h1]
        simp [ih, Except.map]
      | some t =>
        rw [seleccionar, if_neg h1,
          show (pureOps xs mt).mod a = .ok (mt a) from rfl]
        by_cases hlt : mt a < t
        · have hm : matchesSpec ps (some t) mt a = false := by
            simp [matchesSpec, not_le.mpr hlt]
          rw [hm]
          simp [if_pos hlt, ih]
        · have hm : matchesSpec ps (some t) mt a = true := by
            simp [matchesSpec, hpre, not_lt.mp hlt]
          rw [hm]
          simp [if_neg hlt, ih, Except.map]

/-- On an all-succeeding connection every fetch goes through. -/
theorem fetchAll_pure (xs : List String) (mt : String → Int) :
    ∀ l, fetchAll (pureOps xs mt) l = (.ok (), l.map .fetchEv) := by
  intro l
  induction l with
  | nil => rfl
  | cons a rest ih =>
    rw [fetchAll, show (pureOps xs mt).fetch a = .ok () from rfl]
    simp [ih]

end AgilFtp

namespace AgilFtp

/-- Claim C1:  For every remote directory listing and selection criteria
(`filename_startswith`, `from_date`), the entries selected by the download
are exactly those matching the criteria — (prefix list empty OR the name
starts with some prefix) AND (date absent OR modification time ≥ bound) —
in the original listing order; when at least one entry matches, the
returned archive consists of exactly those entries in that order. -/
theorem download_selects_exactly_matching (mt : String → Int) (ps xs : List String)
    (fd : Option Int) :
    (seleccionar (pureOps xs mt) ps fd xs).1 = .ok (xs.filter (matchesSpec ps fd mt)) ∧
    (xs.filter (matchesSpec ps fd mt) ≠ [] →
      (download_core (pureOps xs mt) ps fd).1 = .ok (xs.filter (matchesSpec ps fd mt))) := by
  refine ⟨seleccionar_pure mt xs ps fd xs, fun h => ?_⟩
  have hsel := seleccionar_pure mt xs ps fd xs
  have hne : (xs.filter (matchesSpec ps fd mt)).isEmpty = false := by
    simpa [List.isEmpty_iff] using h
  simp only [download_core, show (pureOps xs mt).listing = .ok xs from rfl, hsel, hne,
    fetchAll_pure]
  simp

/-- Claim C1 witness: end-to-end scenario A of the specification: prefixes
`["invoice_"]` and bound `20240201` select exactly `invoice_feb.csv` out of
the three listed files. -/
theorem download_selects_exactly_matching_witness :
    (download_core
        (pureOps ["invoice_jan.csv", "invoice_feb.csv", "report.csv"]
          (fun f => if f = "invoice_jan.csv" then 20240110
            else if f = "invoice_feb.csv" then 20240210 else 20240215))
        ["invoice_"] (some 20240201)).1 = .ok ["invoice_feb.csv"] := by
  have h := download_selects_exactly_matching
    (fun f => if f = "invoice_jan.csv" then 20240110
      else if f = "invoice_feb.csv" then 20240210 else 20240215)
    ["invoice_"] ["invoice_jan.csv", "invoice_feb.csv", "report.csv"] (some 20240201)
  have hfil : (["invoice_jan.csv", "invoice_feb.csv", "report.csv"].filter
      (matchesSpec ["invoice_"] (some 20240201)
        (fun f => if f = "invoice_jan.csv" then 20240110
          else if f = "invoice_feb.csv" then 20240210 else 20240215))) =
      ["invoice_feb.csv"] := by decide
  rw [← hfil]
  exact h.2 (by rw [hfil]; decide)

/-- Claim C5:  A download whose criteria match no entry fails with the
selection error (a distinct constructor of the error taxonomy, not a
transport failure), the connection is closed first (line 64), and no run of
the download ever returns an empty archive. -/
theorem download_zero_matches_selection_error (mt : String → Int) (ps xs : List String)
    (fd : Option Int) (h : xs.filter (matchesSpec ps fd mt) = []) :
    (download_core (pureOps xs mt) ps fd).1 = .error .selectionError ∧
    DlEv.closeEv ∈ (download_core (pureOps xs mt) ps fd).2 ∧
    ∀ (ops : DlOps) (r : List String), (download_core ops ps fd).1 = .ok r → r ≠ [] := by
  have hsel := seleccionar_pure mt xs ps fd xs
  have hne : (xs.filter (matchesSpec ps fd mt)).isEmpty = true := by
    simp [List.isEmpty_iff, h]
  refine ⟨?_, ?_, ?_⟩
  · simp only [download_core, show (pureOps xs mt).listing = .ok xs from rfl, hsel, hne]
    simp
  · simp only [download_core, show (pureOps xs mt).listing = .ok xs from rfl, hsel, hne]
    simp
  · intro ops r hr
    unfold download_core at hr
    cases hls : ops.listing with
    | error e => rw [hls] at hr; simp at hr
    | ok archivos =>
      rw [hls] at hr
      simp only at hr
      cases hs : (seleccionar ops ps fd archivos).1 with
      | error e => rw [hs] at hr; simp at hr
      | ok sel =>
        rw [hs] at hr
        simp only at hr
        by_cases he : sel.isEmpty = true
        · rw [if_pos he] at hr; simp at hr
        · rw [if_neg he] at hr
          cases hf : (fetchAll ops sel).1 with
          | error e => rw [hf] at hr; simp at hr
          | ok u =>
            rw [hf] at hr
            simp only [Except.ok.injEq] at hr
            subst hr
            simpa [List.isEmpty_iff] using he

/-- Claim C5 witness: a listing with one file and a prefix filter matching
nothing fails with the selection error after closing. -/
theorem download_zero_matches_selection_error_witness :
    (download_core (pureOps ["x.txt"] (fun _ => 0)) ["y"] none).1 =
      .error .selectionError :=
  (download_zero_matches_selection_error (fun _ => 0) ["y"] ["x.txt"] none (by decide)).1

/-- Claim C4 is violated by the code: when the fetch of a selected file
raises, `download_from_server` propagates the failure without ever calling
`close_func` — there is no `try/finally` around lines 56–72 — so the
connection is still open when the failure reaches the caller.  The run
below lists one file, selects it, and fails its fetch: the event trace
contains no close. -/
theorem fetch_failure_leaves_connection_open :
    download_core ⟨.ok ["a.txt"], fun _ => .ok 0, fun _ => .error "io error"⟩ [] none =
      (.error (.opError "io error"), [.connectEv, .listEv, .fetchEv "a.txt"]) ∧
    DlEv.closeEv ∉ [DlEv.connectEv, DlEv.listEv, DlEv.fetchEv "a.txt"] := by
  exact ⟨rfl, by decide⟩

/-- Claim C9:  For every connection type whose lowercase form is neither
`"sftp"` nor `"ftps"`, both download and upload fail with the
connection-type error, performing no remote operation (empty download
trace, both remote states untouched — the result does not depend on them
at all). -/
theorem unknown_conn_type_fails_at_open (ct : String)
    (h1 : strLower ct ≠ "sftp") (h2 : strLower ct ≠ "ftps") :
    ∀ (sops fops : DlOps) (ps : List String) (fd : Option Int)
      (refuse : List String → Bool) (s0 : SftpSt) (f0 : FtpsSt) (rd : String)
      (files : List (String × String)),
      download_from_server ct sops fops ps fd = (.error .connTypeError, []) ∧
      upload_to_server ct refuse s0 f0 rd files = .errRes .connTypeError := by
  intro sops fops ps fd refuse s0 f0 rd files
  constructor
  · simp [download_from_server, h1, h2]
  · simp [upload_to_server, h1, h2]

/-- Claim C9 witness: at the concrete unknown value `"ftp"`. -/
theorem unknown_conn_type_fails_at_open_witness :
    download_from_server "ftp" (pureOps [] (fun _ => 0)) (pureOps [] (fun _ => 0)) [] none =
      (.error .connTypeError, []) ∧
    upload_to_server "ftp" (fun _ => false) ⟨[], []⟩ ⟨[], [], []⟩ "/r" [] =
      .errRes .connTypeError :=
  unknown_conn_type_fails_at_open "ftp" (by decide) (by decide)
    (pureOps [] (fun _ => 0)) (pureOps [] (fun _ => 0)) [] none
    (fun _ => false) ⟨[], []⟩ ⟨[], [], []⟩ "/r" []

/-- Claim C10:  The protocol selector is case-insensitive: whenever
`conn_type.lower()` is `"sftp"` or `"ftps"`, download and upload behave
exactly as with the lowercase value. -/
theorem conn_type_case_insensitive (ct : String)
    (h : strLower ct = "sftp" ∨ strLower ct = "ftps") :
    ∀ (sops fops : DlOps) (ps : List String) (fd : Option Int)
      (refuse : List String → Bool) (s0 : SftpSt) (f0 : FtpsSt) (rd : String)
      (files : List (String × String)),
      download_from_server ct sops fops ps fd =
        download_from_server (strLower ct) sops fops ps fd ∧
      upload_to_server ct refuse s0 f0 rd files =
        upload_to_server (strLower ct) refuse s0 f0 rd files := by
  intro sops fops ps fd refuse s0 f0 rd files
  rcases h with h | h <;> rw [h] <;>
    constructor <;>
      simp [download_from_server, upload_to_server, h,
        show strLower "sftp" = "sftp" by decide, show strLower "ftps" = "ftps" by decide]

/-- Claim C10 witness: at the mixed-case value `"SFTP"`. -/
theorem conn_type_case_insensitive_witness :
    download_from_server "SFTP" (pureOps [] (fun _ => 0)) (pureOps [] (fun _ => 0)) [] none =
      download_from_server (strLower "SFTP") (pureOps [] (fun _ => 0))
        (pureOps [] (fun _ => 0)) [] none ∧
    upload_to_server "SFTP" (fun _ => false) ⟨[], []⟩ ⟨[], [], []⟩ "/r" [] =
      upload_to_server (strLower "SFTP") (fun _ => false) ⟨[], []⟩ ⟨[], [], []⟩ "/r" [] :=
  conn_type_case_insensitive "SFTP" (Or.inl (by decide))
    (pureOps [] (fun _ => 0)) (pureOps [] (fun _ => 0)) [] none
    (fun _ => false) ⟨[], []⟩ ⟨[], [], []⟩ "/r" []

end AgilFtp


namespace AgilFtp

/-- An item failing the validation of line 180 is skipped with no effect at
all on the SFTP branch. -/
theorem processItemS_skip (refuse : List String → Bool) (base : String)
    (st : SftpSt) (it : String × String) (h : acceptedItem it = false) :
    processItemS refuse base st it = .ok (st, [], none) := by
  have h2 := h
  unfold acceptedItem at h2
  have hc := not_not.mp (of_decide_eq_false h2)
  unfold processItemS
  rw [if_pos hc]

/-- An item failing the validation of line 131 is skipped with no effect at
all on the FTPS branch. -/
theorem processItemF_skip (refuse : List String → Bool) (base : String)
    (st : FtpsSt) (it : String × String) (h : acceptedItem it = false) :
    processItemF refuse base st it = .ok (st, none) := by
  have h2 := h
  unfold acceptedItem at h2
  have hc := not_not.mp (of_decide_eq_false h2)
  unfold processItemF
  rw [if_pos hc]

/-- An accepted item on the SFTP branch either raises or is stored and
reported under `posixpath.join(remote_base, relposix)`. -/
theorem processItemS_accepted (refuse : List String → Bool) (base : String)
    (st : SftpSt) (it : String × String) (h : acceptedItem it = true) :
    (∃ e, processItemS refuse base st it = .error e) ∨
    ∃ st2 ev, processItemS refuse base st it =
      .ok (st2, ev, some (posixJoin base (relposixOf it.1))) := by
  have h2 := h
  unfold acceptedItem at h2
  have hc := of_decide_eq_true h2
  unfold processItemS
  rw [if_neg hc]
  split
  · exact Or.inl ⟨_, rfl⟩
  · exact Or.inr ⟨_, _, rfl⟩

/-- An accepted item on the FTPS branch either raises or is stored and
reported under `posixpath.join(remote_base, relposix)`. -/
theorem processItemF_accepted (refuse : List String → Bool) (base : String)
    (st : FtpsSt) (it : String × String) (h : acceptedItem it = true) :
    (∃ e, processItemF refuse base st it = .error e) ∨
    ∃ st2, processItemF refuse base st it =
      .ok (st2, some (posixJoin base (relposixOf it.1))) := by
  have h2 := h
  unfold acceptedItem at h2
  have hc := of_decide_eq_true h2
  unfold processItemF
  rw [if_neg hc]
  split
  · exact Or.inl ⟨_, rfl⟩
  · split
    · exact Or.inl ⟨_, rfl⟩
    · exact Or.inr ⟨_, rfl⟩

end AgilFtp

namespace AgilFtp

/-- When the SFTP upload loop returns, the reported list is exactly the
accepted items' remote paths, in input order. -/
theorem uploadSftp_ok_result (refuse : List String → Bool) (base : String) :
    ∀ (items : List (String × String)) (st st2 : SftpSt) (ev : List UpEv)
      (up : List String),
      uploadSftpLoop refuse base st items = .ok (st2, ev, up) →
      up = (items.filter acceptedItem).map (fun it => posixJoin base (relposixOf it.1)) := by
  intro items
  induction items with
  | nil =>
    intro st st2 ev up h
    simp only [uploadSftpLoop, Except.ok.injEq, Prod.mk.injEq] at h
    simp [← h.2.2]
  | cons it rest ih =>
    intro st st2 ev up h
    rw [List.filter_cons]
    cases hacc : acceptedItem it with
    | false =>
      rw [uploadSftpLoop, processItemS_skip refuse base st it hacc] at h
      replace h : Except.map
          (fun r : SftpSt × List UpEv × List String => (r.1, ([] : List UpEv) ++ r.2.1, r.2.2))
          (uploadSftpLoop refuse base st rest) = Except.ok (st2, ev, up) := h
      cases hrec : uploadSftpLoop refuse base st rest with
      | error e => rw [hrec] at h; exact absurd h (by simp [Except.map])
      | ok r =>
        rw [hrec] at h
        simp only [Except.map, Except.ok.injEq, Prod.mk.injEq] at h
        simp only [hacc, Bool.false_eq_true, if_false]
        rw [← h.2.2]
        exact ih st r.1 r.2.1 r.2.2 (by rw [hrec])
    | true =>
      rcases processItemS_accepted refuse base st it hacc with ⟨e, he⟩ | ⟨st1, ev1, he⟩
      · rw [uploadSftpLoop, he] at h
        exact absurd h (by simp)
      · rw [uploadSftpLoop, he] at h
        replace h : Except.map
            (fun r : SftpSt × List UpEv × List String =>
              (r.1, ev1 ++ r.2.1, posixJoin base (relposixOf it.1) :: r.2.2))
            (uploadSftpLoop refuse base st1 rest) = Except.ok (st2, ev, up) := h
        cases hrec : uploadSftpLoop refuse base st1 rest with
        | error e2 => rw [hrec] at h; exact absurd h (by simp [Except.map])
        | ok r =>
          rw [hrec] at h
          simp only [Except.map, Except.ok.injEq, Prod.mk.injEq] at h
          simp only [hacc, if_true]
          rw [← h.2.2, List.map_cons]
          exact congrArg _ (ih st1 r.1 r.2.1 r.2.2 (by rw [hrec]))

/-- When the FTPS upload loop returns, the reported list is exactly the
accepted items' remote paths, in input order. -/
theorem uploadFtps_ok_result (refuse : List String → Bool) (base : String) :
    ∀ (items : List (String × String)) (st st2 : FtpsSt) (up : List String),
      uploadFtpsLoop refuse base st items = .ok (st2, up) →
      up = (items.filter acceptedItem).map (fun it => posixJoin base (relposixOf it.1)) := by
  intro items
  induction items with
  | nil =>
    intro st st2 up h
    simp only [uploadFtpsLoop, Except.ok.injEq, Prod.mk.injEq] at h
    simp [← h.2]
  | cons it rest ih =>
    intro st st2 up h
    rw [List.filter_cons]
    cases hacc : acceptedItem it with
    | false =>
      rw [uploadFtpsLoop, processItemF_skip refuse base st it hacc] at h
      replace h : uploadFtpsLoop refuse base st rest = Except.ok (st2, up) := h
      simp only [hacc, Bool.false_eq_true, if_false]
      exact ih st st2 up h
    | true =>
      rcases processItemF_accepted refuse base st it hacc with ⟨e, he⟩ | ⟨st1, he⟩
      · rw [uploadFtpsLoop, he] at h
        exact absurd h (by simp)
      · rw [uploadFtpsLoop, he] at h
        replace h : Except.map
            (fun r : FtpsSt × List String =>
              (r.1, posixJoin base (relposixOf it.1) :: r.2))
            (uploadFtpsLoop refuse base st1 rest) = Except.ok (st2, up) := h
        cases hrec : uploadFtpsLoop refuse base st1 rest with
        | error e2 => rw [hrec] at h; exact absurd h (by simp [Except.map])
        | ok r =>
          rw [hrec] at h
          simp only [Except.map, Except.ok.injEq, Prod.mk.injEq] at h
          simp only [hacc, if_true]
          rw [← h.2, List.map_cons]
          exact congrArg _ (ih st1 r.1 r.2 (by rw [hrec]))

end AgilFtp

namespace AgilFtp

/-- Claim C3 (amended): the upload validation rejects (skips) a relative
path P if and only if `posixpath.normpath(P).lstrip("/")` is empty or
starts with the two characters `".."` — a string-prefix test, not a
segment test — on both branches; it never rejects a well-formed nested
path such as `"a/b/c.txt"`. -/
theorem upload_validation_characterisation :
    ∀ (P c : String) (refuse : List String → Bool) (base : String)
      (st : SftpSt) (stF : FtpsSt),
      (processItemS refuse base st (P, c) = .ok (st, [], none) ↔
        (relposixOf P = "" ∨ strStarts (relposixOf P) ".." = true)) ∧
      (processItemF refuse base stF (P, c) = .ok (stF, none) ↔
        (relposixOf P = "" ∨ strStarts (relposixOf P) ".." = true)) ∧
      relposixOf "a/b/c.txt" = "a/b/c.txt" ∧
      strStarts (relposixOf "a/b/c.txt") ".." = false := by
  intro P c refuse base st stF
  refine ⟨⟨fun h => ?_, fun h => ?_⟩, ⟨fun h => ?_, fun h => ?_⟩, by decide, by decide⟩
  · by_contra hcond
    have hacc : acceptedItem (P, c) = true := decide_eq_true hcond
    rcases processItemS_accepted refuse base st (P, c) hacc with ⟨e, he⟩ | ⟨st2, ev, he⟩
    · rw [he] at h; exact Except.noConfusion h
    · rw [he] at h
      simp only [Except.ok.injEq, Prod.mk.injEq] at h
      exact Option.noConfusion h.2.2
  · exact processItemS_skip refuse base st (P, c) (decide_eq_false (not_not_intro h))
  · by_contra hcond
    have hacc : acceptedItem (P, c) = true := decide_eq_true hcond
    rcases processItemF_accepted refuse base stF (P, c) hacc with ⟨e, he⟩ | ⟨st2, he⟩
    · rw [he] at h; exact Except.noConfusion h
    · rw [he] at h
      simp only [Except.ok.injEq, Prod.mk.injEq] at h
      exact Option.noConfusion h.2
  · exact processItemF_skip refuse base stF (P, c) (decide_eq_false (not_not_intro h))

/-- Claim C3 counterexample: `"..hidden.txt"` normalises to itself, its
first (and only) segment is `"..hidden.txt"`, which is not the
parent-traversal segment `".."` — yet the upload skips it, because
line 180 tests `relposix.startswith("..")` on the string.  So "rejects iff
empty after normalisation or begins with a parent-traversal segment" is
false. -/
theorem validation_rejects_dotdot_named_file :
    processItemS (fun _ => false) "/incoming" ⟨[["incoming"]], []⟩ ("..hidden.txt", "c") =
      .ok (⟨[["incoming"]], []⟩, [], none) ∧
    segsOf (posixNormpath "..hidden.txt") = ["..hidden.txt"] ∧
    ("..hidden.txt" : String) ≠ ".." := ⟨rfl, rfl, by decide⟩

/-- Claim C2 (amended): no item whose normalised relative path is empty or
starts with `".."` is ever passed to the remote store — such items are
skipped with no remote effect at all, on both branches.  (Items whose path
normalises to `"."`, including the empty relative path, are however not
skipped: see the counterexample.) -/
theorem upload_rejected_items_never_stored :
    ∀ (refuse : List String → Bool) (base : String) (st : SftpSt) (stF : FtpsSt)
      (it : String × String), acceptedItem it = false →
      processItemS refuse base st it = .ok (st, [], none) ∧
      processItemF refuse base stF it = .ok (stF, none) :=
  fun refuse base st stF it h =>
    ⟨processItemS_skip refuse base st it h, processItemF_skip refuse base stF it h⟩

/-- Claim C2 witness at the traversal item of scenario B. -/
theorem upload_rejected_items_never_stored_witness :
    processItemS (fun _ => false) "/incoming" ⟨[], []⟩ ("../evil.txt", "2") =
      .ok (⟨[], []⟩, [], none) ∧
    processItemF (fun _ => false) "/incoming" ⟨[], [], []⟩ ("../evil.txt", "2") =
      .ok (⟨[], [], []⟩, none) :=
  upload_rejected_items_never_stored (fun _ => false) "/incoming" ⟨[], []⟩ ⟨[], [], []⟩
    ("../evil.txt", "2") (by decide)

/-- Claim C2 counterexample: the item with the empty relative path — whose
normalisation `posixpath.normpath("") = "."` escapes the `relposix == ""`
test of line 180 — is passed to the remote store: `client.open` is invoked
with `"/incoming/."` (and fails there).  The claim says an item with an
empty (or `"."`) path is never passed to the store. -/
theorem empty_path_item_reaches_store :
    uploadSftpLoop (fun _ => false) "/incoming" ⟨[["incoming"]], []⟩ [("", "c")] =
      .error (.storeFail "/incoming/.") ∧
    relposixOf "" = "." := ⟨rfl, rfl⟩

/-- Claim C6 counterexample (SFTP branch): segment `b/a` is missing and its
creation is refused by the server; `ensure_remote_dirs` attempts the
`mkdir` and swallows the failure (`except Exception: pass`, lines 174–176),
returning normally with nothing created — no `DirectoryError` — and the
subsequent store fails with a plain transfer failure instead. -/
theorem sftp_refused_creation_swallowed :
    ensure_remote_dirs (fun t => t = ["b", "a"]) [["b"]] "/b/a" = ([["b"]], []) ∧
    uploadSftpLoop (fun t => t = ["b", "a"]) "/b" ⟨[["b"]], []⟩ [("a/f.txt", "z")] =
      .error (.storeFail "/b/a/f.txt") := ⟨rfl, rfl⟩

/-- Claim C6 (amended): directory-creation refusal is fatal only on the
FTPS branch.  On the SFTP branch every creation failure is swallowed:
`ensure_remote_dirs` returns normally and creates nothing when the server
refuses everything.  On the FTPS branch a refused creation of a missing
walked segment raises (first concrete run), while a walk whose segments
all exist succeeds even under a refuse-everything server (second run). -/
theorem ensure_directory_refusal_behaviour :
    (∀ (dirs : List (List String)) (pt parts : List String),
        ensureGo (fun _ => true) dirs pt parts = (dirs, [])) ∧
    ensure_dir (fun _ => true) "/b" ⟨[["b"]], [], []⟩ "/b/a" = none ∧
    ensure_dir (fun _ => true) "/b" ⟨[["b"], ["b", "b"], ["b", "b", "a"]], [], []⟩ "/b/a" =
      some ⟨[["b"], ["b", "b"], ["b", "b", "a"]], ["b"], []⟩ := by
  refine ⟨?_, rfl, rfl⟩
  intro dirs pt parts
  induction parts generalizing dirs pt with
  | nil => rfl
  | cons p rest ih =>
    rw [ensureGo]
    by_cases hex : dirExists dirs (rstep pt p) = true
    · rw [if_pos hex]
      exact ih dirs (rstep pt p)
    · rw [if_neg hex, if_neg (by simp)]
      exact ih dirs (rstep pt p)

/-- Claim C8: when an upload returns, its result lists one remote path per
accepted item, in input order, rejected items omitted without shifting the
correspondence (both branches); and scenario B on the default SFTP branch:
items `[("a/b.txt", "1"), ("../evil.txt", "2"), ("c.txt", "3")]` against
remote base `"/incoming"` yield exactly
`["/incoming/a/b.txt", "/incoming/c.txt"]`, with directory `incoming/a`
created before `b.txt` is stored (the event trace lists the creation
first). -/
theorem upload_result_order_and_scenario :
    (∀ (refuse : List String → Bool) (base : String) (items : List (String × String))
       (st st2 : SftpSt) (ev : List UpEv) (up : List String),
       uploadSftpLoop refuse base st items = .ok (st2, ev, up) →
       up = (items.filter acceptedItem).map (fun it => posixJoin base (relposixOf it.1))) ∧
    (∀ (refuse : List String → Bool) (base : String) (items : List (String × String))
       (st st2 : FtpsSt) (up : List String),
       uploadFtpsLoop refuse base st items = .ok (st2, up) →
       up = (items.filter acceptedItem).map (fun it => posixJoin base (relposixOf it.1))) ∧
    upload_to_server "sftp" (fun _ => false) ⟨[["incoming"]], []⟩ ⟨[], [], []⟩ "/incoming"
      [("a/b.txt", "1"), ("../evil.txt", "2"), ("c.txt", "3")] =
    .sftpRes (.ok (⟨[["incoming"], ["incoming", "a"]],
      [["incoming", "a", "b.txt"], ["incoming", "c.txt"]]⟩,
      [.mkdirEv ["incoming", "a"], .storEv ["incoming", "a", "b.txt"],
        .storEv ["incoming", "c.txt"]],
      ["/incoming/a/b.txt", "/incoming/c.txt"])) :=
  ⟨fun refuse base items st st2 ev up h => uploadSftp_ok_result refuse base items st st2 ev up h,
   fun refuse base items st st2 up h => uploadFtps_ok_result refuse base items st st2 up h,
   by rfl⟩

/-- Claim C8 witness: the order property applied to the concrete scenario
B run. -/
theorem upload_result_order_and_scenario_witness :
    (["/incoming/a/b.txt", "/incoming/c.txt"] : List String) =
      ([("a/b.txt", "1"), ("../evil.txt", "2"), ("c.txt", "3")].filter acceptedItem).map
        (fun it => posixJoin "/incoming" (relposixOf it.1)) :=
  upload_result_order_and_scenario.1 (fun _ => false) "/incoming"
    [("a/b.txt", "1"), ("../evil.txt", "2"), ("c.txt", "3")]
    ⟨[["incoming"]], []⟩
    ⟨[["incoming"], ["incoming", "a"]],
      [["incoming", "a", "b.txt"], ["incoming", "c.txt"]]⟩
    [.mkdirEv ["incoming", "a"], .storEv ["incoming", "a", "b.txt"],
      .storEv ["incoming", "c.txt"]]
    ["/incoming/a/b.txt", "/incoming/c.txt"] (by rfl)

end AgilFtp

namespace AgilFtp

/-! ## Idempotence analysis of `ensure_remote_dirs` -/

theorem blockedB_ne_nil (refuse : List String → Bool) (dirs : List (List String))
    {t : List String} (ht : t ≠ []) :
    blockedB refuse dirs t =
      (!(dirs.contains t) && (refuse t || blockedB refuse dirs t.dropLast)) := by
  obtain ⟨x, rs, hrev⟩ : ∃ x rs, t.reverse = x :: rs := by
    cases hr : t.reverse with
    | nil =>
      exact absurd (by simpa using congrArg List.reverse hr) ht
    | cons x rs => exact ⟨x, rs, rfl⟩
  have ht' : (x :: rs).reverse = t := by rw [← hrev, List.reverse_reverse]
  have hdrop : t.dropLast.reverse = rs := by
    rw [← ht', List.reverse_cons, List.dropLast_concat, List.reverse_reverse]
  rw [blockedB, hrev, blockedR, ht']
  rw [show blockedR refuse dirs rs = blockedB refuse dirs t.dropLast by
    rw [blockedB, hdrop]]

theorem blockedB_facts {refuse : List String → Bool} {dirs : List (List String)}
    {t : List String} (h : blockedB refuse dirs t = true) :
    t ≠ [] ∧ dirs.contains t = false := by
  have ht : t ≠ [] := by
    rintro rfl
    rw [blockedB] at h
    simp [blockedR] at h
  refine ⟨ht, ?_⟩
  rw [blockedB_ne_nil refuse dirs ht, Bool.and_eq_true] at h
  simpa using h.1

theorem blockedB_dirExists_false {refuse : List String → Bool}
    {dirs : List (List String)} {t : List String}
    (h : blockedB refuse dirs t = true) : dirExists dirs t = false := by
  obtain ⟨ht, hc⟩ := blockedB_facts h
  have hmem : t ∉ dirs := fun hm => by
    rw [contains_true_iff.mpr hm] at hc
    exact Bool.noConfusion hc
  simp [dirExists, ht, hmem]

theorem contains_append_false {d : List (List String)} {u T : List String}
    (h1 : d.contains T = false) (h2 : T ≠ u) : (d ++ [u]).contains T = false := by
  cases hb : (d ++ [u]).contains T with
  | false => rfl
  | true =>
    rcases List.mem_append.mp (contains_true_iff.mp hb) with hm | hm
    · rw [← contains_true_iff] at hm
      rw [h1] at hm
      exact Bool.noConfusion hm
    · simp at hm
      exact absurd hm h2

theorem blockedR_add {refuse : List String → Bool} {dirs : List (List String)}
    {u : List String}
    (hu2 : dirExists dirs u.dropLast = true) (hu3 : refuse u = false) :
    ∀ rs, blockedR refuse dirs rs = true → blockedR refuse (dirs ++ [u]) rs = true := by
  intro rs
  induction rs with
  | nil => intro h; exact absurd h (by simp [blockedR])
  | cons x rs ih =>
    intro h
    rw [blockedR, Bool.and_eq_true] at h
    obtain ⟨hc, hrest⟩ := h
    have hcB : dirs.contains ((x :: rs).reverse) = false := by simpa using hc
    have hrest2 : refuse ((x :: rs).reverse) = true ∨ blockedR refuse dirs rs = true := by
      simpa using hrest
    have hTu : (x :: rs).reverse ≠ u := by
      intro heq
      rcases hrest2 with hr | hb
      · rw [heq, hu3] at hr
        exact Bool.noConfusion hr
      · have hfacts : rs.reverse ≠ [] ∧ dirs.contains rs.reverse = false := by
          have : blockedB refuse dirs rs.reverse = true := by
            rw [blockedB, List.reverse_reverse]
            exact hb
          exact blockedB_facts this
        have hdl : u.dropLast = rs.reverse := by
          rw [← heq, List.reverse_cons, List.dropLast_concat]
        rw [hdl] at hu2
        have hcont : dirs.contains rs.reverse = true := by
          simpa [dirExists, hfacts.1] using contains_true_iff.mpr (by
            have h2 := hu2
            simp [dirExists, hfacts.1] at h2
            exact h2)
        rw [hfacts.2] at hcont
        exact Bool.noConfusion hcont
    rw [blockedR, Bool.and_eq_true]
    constructor
    · simpa using contains_append_false hcB hTu
    · rcases hrest2 with hr | hb
      · simp only [Bool.or_eq_true]
        exact Or.inl (by simpa using hr)
      · simp only [Bool.or_eq_true]
        exact Or.inr (ih hb)

theorem blockedB_add {refuse : List String → Bool} {dirs : List (List String)}
    {u : List String}
    (hu2 : dirExists dirs u.dropLast = true) (hu3 : refuse u = false)
    (t : List String) (h : blockedB refuse dirs t = true) :
    blockedB refuse (dirs ++ [u]) t = true := by
  rw [blockedB] at h ⊢
  exact blockedR_add hu2 hu3 t.reverse h

end AgilFtp

namespace AgilFtp

theorem dirExists_true_iff {d : List (List String)} {t : List String} :
    dirExists d t = true ↔ (t = [] ∨ t ∈ d) := by
  rw [dirExists, Bool.or_eq_true, decide_eq_true_eq, contains_true_iff]

theorem contains_ensureGo (refuse : List String → Bool) :
    ∀ (parts : List String) (dirs : List (List String)) (pt x : List String),
      dirs.contains x = true → (ensureGo refuse dirs pt parts).1.contains x = true := by
  intro parts
  induction parts with
  | nil => intro dirs pt x h; exact h
  | cons p rest ih =>
    intro dirs pt x h
    rw [ensureGo]
    by_cases hex : dirExists dirs (rstep pt p) = true
    · rw [if_pos hex]
      exact ih dirs (rstep pt p) x h
    · by_cases hg : dirExists dirs (rstep pt p).dropLast = true ∧ ¬ refuse (rstep pt p) = true
      · rw [if_neg hex, if_pos hg]
        exact ih (dirs ++ [rstep pt p]) (rstep pt p) x (contains_append_left h)
      · rw [if_neg hex, if_neg hg]
        exact ih dirs (rstep pt p) x h

theorem dirExists_ensureGo (refuse : List String → Bool)
    {parts : List String} {dirs : List (List String)} {pt t : List String}
    (h : dirExists dirs t = true) :
    dirExists (ensureGo refuse dirs pt parts).1 t = true := by
  rcases dirExists_true_iff.mp h with h0 | h0
  · simp [dirExists, h0]
  · have := contains_ensureGo refuse parts dirs pt t (contains_true_iff.mpr h0)
    exact dirExists_true_iff.mpr (Or.inr (contains_true_iff.mp this))

theorem blockedB_ensureGo (refuse : List String → Bool) :
    ∀ (parts : List String) (dirs : List (List String)) (pt t : List String),
      blockedB refuse dirs t = true →
      blockedB refuse (ensureGo refuse dirs pt parts).1 t = true := by
  intro parts
  induction parts with
  | nil => intro dirs pt t h; exact h
  | cons p rest ih =>
    intro dirs pt t h
    rw [ensureGo]
    by_cases hex : dirExists dirs (rstep pt p) = true
    · rw [if_pos hex]
      exact ih dirs (rstep pt p) t h
    · by_cases hg : dirExists dirs (rstep pt p).dropLast = true ∧ ¬ refuse (rstep pt p) = true
      · rw [if_neg hex, if_pos hg]
        exact ih (dirs ++ [rstep pt p]) (rstep pt p) t
          (blockedB_add hg.1 (by simpa using hg.2) t h)
      · rw [if_neg hex, if_neg hg]
        exact ih dirs (rstep pt p) t h

theorem ensureInv_add {refuse : List String → Bool} {dirs : List (List String)}
    {pt u : List String}
    (hu2 : dirExists dirs u.dropLast = true) (hu3 : refuse u = false)
    (hinv : EnsureInv refuse dirs pt) : EnsureInv refuse (dirs ++ [u]) pt := by
  intro n
  rcases hinv n with h | h
  · left
    rcases dirExists_true_iff.mp h with h0 | h0
    · simp [dirExists, h0]
    · have := @contains_append_left dirs u (List.take n pt) (contains_true_iff.mpr h0)
      exact dirExists_true_iff.mpr (Or.inr (contains_true_iff.mp this))
  · right
    exact blockedB_add hu2 hu3 _ h

theorem ensureInv_step {refuse : List String → Bool} {dirs : List (List String)}
    {pt : List String} (p : String) (hinv : EnsureInv refuse dirs pt)
    (hstat : dirExists dirs (rstep pt p) = true ∨ blockedB refuse dirs (rstep pt p) = true) :
    EnsureInv refuse dirs (rstep pt p) := by
  intro n
  by_cases hdot : p = "."
  · rw [rstep, if_pos hdot]
    exact hinv n
  · by_cases hdd : p = ".."
    · rw [rstep, if_neg hdot, if_pos hdd]
      rw [List.dropLast_eq_take, List.take_take]
      exact hinv (min n (pt.length - 1))
    · rw [rstep, if_neg hdot, if_neg hdd]
      by_cases hn : n ≤ pt.length
      · rw [List.take_append_eq_append_take,
          show n - pt.length = 0 by omega, List.take_zero, List.append_nil]
        exact hinv n
      · rw [List.take_of_length_le (by simp; omega)]
        rw [show pt ++ [p] = rstep pt p by rw [rstep, if_neg hdot, if_neg hdd]]
        exact hstat

end AgilFtp

namespace AgilFtp

theorem blocked_of_fail {refuse : List String → Bool} {dirs : List (List String)}
    {pt : List String} (p : String) (hinv : EnsureInv refuse dirs pt)
    (hex : ¬ dirExists dirs (rstep pt p) = true)
    (hg : ¬ (dirExists dirs (rstep pt p).dropLast = true ∧ ¬ refuse (rstep pt p) = true)) :
    blockedB refuse dirs (rstep pt p) = true := by
  by_cases hdot : p = "."
  · have hpt : rstep pt p = pt := by rw [rstep, if_pos hdot]
    rw [hpt] at hex ⊢
    rcases hinv pt.length with h | h
    · rw [List.take_length] at h; exact absurd h hex
    · rw [List.take_length] at h; exact h
  · by_cases hdd : p = ".."
    · have hpt : rstep pt p = pt.dropLast := by rw [rstep, if_neg hdot, if_pos hdd]
      rw [hpt] at hex ⊢
      rcases hinv (pt.length - 1) with h | h
      · rw [← List.dropLast_eq_take] at h; exact absurd h hex
      · rw [← List.dropLast_eq_take] at h; exact h
    · have hpt : rstep pt p = pt ++ [p] := by rw [rstep, if_neg hdot, if_neg hdd]
      have hne : rstep pt p ≠ [] := by rw [hpt]; simp
      have hcf : dirs.contains (rstep pt p) = false := by
        cases hb : dirs.contains (rstep pt p) with
        | false => rfl
        | true =>
          exact absurd (dirExists_true_iff.mpr (Or.inr (contains_true_iff.mp hb))) hex
      rw [blockedB_ne_nil refuse dirs hne, hcf]
      by_cases hr : refuse (rstep pt p) = true
      · simp [hr]
      · have hdl : dirExists dirs (rstep pt p).dropLast = false := by
          cases hb : dirExists dirs (rstep pt p).dropLast with
          | false => rfl
          | true => exact absurd ⟨hb, hr⟩ hg
        have hdrop : (rstep pt p).dropLast = pt := by
          rw [hpt, List.dropLast_concat]
        rcases hinv pt.length with h | h
        · rw [List.take_length] at h
          rw [hdrop] at hdl
          rw [h] at hdl
          exact Bool.noConfusion hdl
        · rw [List.take_length] at h
          rw [hdrop, h]
          simp

/-- Replaying the `ensure_remote_dirs` walk over a state it has already
produced changes nothing and performs no creation: every walked point
either exists by now or is blocked for good. -/
theorem ensureGo_idem (refuse : List String → Bool) :
    ∀ (parts : List String) (dirs : List (List String)) (pt : List String),
      EnsureInv refuse dirs pt →
      ensureGo refuse (ensureGo refuse dirs pt parts).1 pt parts =
        ((ensureGo refuse dirs pt parts).1, []) := by
  intro parts
  induction parts with
  | nil => intro dirs pt _; rfl
  | cons p rest ih =>
    intro dirs pt hinv
    by_cases hex : dirExists dirs (rstep pt p) = true
    · have h1 : ensureGo refuse dirs pt (p :: rest) = ensureGo refuse dirs (rstep pt p) rest := by
        rw [ensureGo, if_pos hex]
      rw [h1, ensureGo,
        if_pos (dirExists_ensureGo refuse hex)]
      exact ih dirs (rstep pt p) (ensureInv_step p hinv (Or.inl hex))
    · by_cases hg : dirExists dirs (rstep pt p).dropLast = true ∧ ¬ refuse (rstep pt p) = true
      · have h1 : ensureGo refuse dirs pt (p :: rest) =
            ((ensureGo refuse (dirs ++ [rstep pt p]) (rstep pt p) rest).1,
              .mkdirEv (rstep pt p) ::
                (ensureGo refuse (dirs ++ [rstep pt p]) (rstep pt p) rest).2) := by
          rw [ensureGo, if_neg hex, if_pos hg]
        have hmem : (dirs ++ [rstep pt p]).contains (rstep pt p) = true :=
          contains_true_iff.mpr (by simp)
        rw [h1, ensureGo,
          if_pos (dirExists_ensureGo refuse
            (dirExists_true_iff.mpr (Or.inr (contains_true_iff.mp hmem))))]
        exact ih (dirs ++ [rstep pt p]) (rstep pt p)
          (ensureInv_step p (ensureInv_add hg.1 (by simpa using hg.2) hinv)
            (Or.inl (dirExists_true_iff.mpr (Or.inr (contains_true_iff.mp hmem)))))
      · have hbl : blockedB refuse dirs (rstep pt p) = true := blocked_of_fail p hinv hex hg
        have h1 : ensureGo refuse dirs pt (p :: rest) = ensureGo refuse dirs (rstep pt p) rest := by
          rw [ensureGo, if_neg hex, if_neg hg]
        have hblD : blockedB refuse (ensureGo refuse dirs (rstep pt p) rest).1 (rstep pt p) = true :=
          blockedB_ensureGo refuse rest dirs (rstep pt p) (rstep pt p) hbl
        have hexD : ¬ dirExists (ensureGo refuse dirs (rstep pt p) rest).1 (rstep pt p) = true := by
          rw [blockedB_dirExists_false hblD]
          exact Bool.noConfusion
        have hgD : ¬ (dirExists (ensureGo refuse dirs (rstep pt p) rest).1 (rstep pt p).dropLast = true ∧
            ¬ refuse (rstep pt p) = true) := by
          intro hand
          have hne := (blockedB_facts hblD).1
          rw [blockedB_ne_nil refuse _ hne, Bool.and_eq_true, Bool.or_eq_true] at hblD
          rcases hblD.2 with hr | hbp
          · exact hand.2 hr
          · rw [blockedB_dirExists_false hbp] at hand
            exact Bool.noConfusion hand.1
        rw [h1, ensureGo, if_neg hexD, if_neg hgD]
        exact ih dirs (rstep pt p) (ensureInv_step p hinv (Or.inr hbl))

end AgilFtp

namespace AgilFtp

/-- Claim C7 counterexample (FTPS branch): with remote base `"."` and path
`"x"`, two consecutive calls of `ensure_dir` both succeed, yet the second
changes the remote directory state again — the first creates `x` (and
leaves the session inside it, since `cwd(".")` is a no-op), the second
then creates `x/x`.  So `ensureDirectory` is not idempotent on the FTPS
variant: the second call neither preserves the state nor is a no-op. -/
theorem ftps_ensure_dir_not_idempotent :
    ensure_dir (fun _ => false) "." ⟨[], [], []⟩ "x" = some ⟨[["x"]], ["x"], []⟩ ∧
    ensure_dir (fun _ => false) "." ⟨[["x"]], ["x"], []⟩ "x" =
      some ⟨[["x"], ["x", "x"]], ["x", "x"], []⟩ ∧
    ([["x"], ["x", "x"]] : List (List String)) ≠ [["x"]] := ⟨rfl, rfl, by decide⟩

/-- Claim C7 (amended): on the SFTP variant `ensure_remote_dirs` is
idempotent — for every refusal behaviour, directory state and path, a
second call with the same path returns exactly the state produced by the
first and performs no creation at all (and the walk never raises, every
failure being swallowed).  The FTPS variant is not idempotent (see the
counterexample). -/
theorem sftp_ensure_remote_dirs_idempotent :
    ∀ (refuse : List String → Bool) (dirs : List (List String)) (path : String),
      ensure_remote_dirs refuse (ensure_remote_dirs refuse dirs path).1 path =
        ((ensure_remote_dirs refuse dirs path).1, []) := by
  intro refuse dirs path
  have hinv : EnsureInv refuse dirs [] := by
    intro n
    left
    rw [List.take_nil]
    simp [dirExists]
  exact ensureGo_idem refuse (segsOf path) dirs [] hinv

end AgilFtp
